import Mathlib

/-!
Verification of the size-aggregation engine of the `explain` disk-usage
inspector (Rust sources `src/main.rs` and `src/helpers.rs`).

The filesystem is modelled as a tree in which every fallible operation of
the Rust code has an explicit outcome:
* listing a directory (`fs::read_dir`) either succeeds with a list of raw
  entries or fails with an error kind (`FsTree.dirOk` / `FsTree.dirErr`);
* iterating the listing yields each entry either as `Ok` or as an error
  (`RawEntry.entry` / `RawEntry.iterErr`);
* reading an entry's metadata (`DirEntry::metadata`) either succeeds or
  fails with an error kind (the `metaErr : Option ErrKind` field).

Error kinds distinguish exactly what the code distinguishes: whether
`e.kind() == io::ErrorKind::PermissionDenied`, plus `notFound` so that
claims about `io::ErrorKind::NotFound` can be stated.

Both near-identical revisions of the engine are embedded:
* the `main.rs` revision (`calcMain*`, `collectMain*`), whose
  `calculate_total_size` converts a permission-denied `read_dir` failure
  into `Ok(0)` and whose `get_first_layer_full_sizes` drops any failing
  child via `filter_map`/`.ok()?`;
* the `helpers.rs` revision (`calcHelpers*`, `collectHelpers*`), whose
  `calculate_total_size` propagates every `read_dir` failure
  (`fs::read_dir(path)?`) and whose collector propagates per-child
  accumulation errors (`calculate_total_size(&entry.path())?`).
-/

namespace Explain

/-- The distinctions of `io::ErrorKind` that the code's error handling
makes: permission-denied (matched explicitly), not-found (never matched,
relevant to the mid-traversal-disappearance claims), anything else. -/
inductive ErrKind : Type where
  | permissionDenied : ErrKind
  | notFound : ErrKind
  | otherErr : ErrKind
deriving DecidableEq, Repr

mutual
/-- A node of the modelled filesystem: a regular file with its byte
length, or a directory whose `fs::read_dir` either fails with an error
kind or succeeds with a list of raw entries. -/
inductive FsTree : Type where
  | file : Nat → FsTree
  | dirErr : ErrKind → FsTree
  | dirOk : EntryList → FsTree

/-- The listing of a readable directory (a cons-list, kept inside the
mutual block so that all traversals are structurally recursive). -/
inductive EntryList : Type where
  | nil : EntryList
  | cons : RawEntry → EntryList → EntryList

/-- One item yielded by the `read_dir` iterator: either the iterator
yields `Err(k)`, or it yields an entry with a name, a metadata-read
outcome (`none` = metadata read succeeds) and the entry's node. -/
inductive RawEntry : Type where
  | iterErr : ErrKind → RawEntry
  | entry : String → Option ErrKind → FsTree → RawEntry
end

/-- Concatenation of directory listings. -/
def EntryList.append : EntryList → EntryList → EntryList
  | .nil, ys => ys
  | .cons x xs, ys => .cons x (EntryList.append xs ys)

mutual
/-- Embedding of `calculate_total_size` from `src/main.rs` (lines 13–51): a
permission-denied `read_dir` failure yields `Ok(0)`; any other `read_dir`
failure is returned; then the entries are folded left to right. -/
def calcMain : FsTree → Except ErrKind Nat
  | .file _ => .error .otherErr
  | .dirErr k => if k = .permissionDenied then .ok 0 else .error k
  | .dirOk es => calcMainList es

/-- The entry loop of `main.rs`'s `calculate_total_size`: contributions
are summed; the first propagating error aborts the loop. -/
def calcMainList : EntryList → Except ErrKind Nat
  | .nil => .ok 0
  | .cons e rest => do
    let s ← calcMainEntry e
    let r ← calcMainList rest
    pure (s + r)

/-- One iteration of `main.rs`'s entry loop: a permission-denied iterator
error or metadata error is skipped (`continue`, contributing 0), any
other such error is returned; a directory is recursed into, a file
contributes `metadata.len()`. -/
def calcMainEntry : RawEntry → Except ErrKind Nat
  | .iterErr k => if k = .permissionDenied then .ok 0 else .error k
  | .entry _ (some k) _ => if k = .permissionDenied then .ok 0 else .error k
  | .entry _ none (.file sz) => .ok sz
  | .entry _ none t => calcMain t
end

mutual
/-- Embedding of `calculate_total_size` from `src/helpers.rs` (lines 12–39): identical
to the `main.rs` revision except that `fs::read_dir(path)?` propagates
every listing failure, permission-denied included. -/
def calcHelpers : FsTree → Except ErrKind Nat
  | .file _ => .error .otherErr
  | .dirErr k => .error k
  | .dirOk es => calcHelpersList es

/-- The entry loop of `helpers.rs`'s `calculate_total_size`. -/
def calcHelpersList : EntryList → Except ErrKind Nat
  | .nil => .ok 0
  | .cons e rest => do
    let s ← calcHelpersEntry e
    let r ← calcHelpersList rest
    pure (s + r)

/-- One iteration of `helpers.rs`'s entry loop: per-entry handling is the
same as in `main.rs`; the difference surfaces through the recursive call,
which propagates a child directory's listing failure. -/
def calcHelpersEntry : RawEntry → Except ErrKind Nat
  | .iterErr k => if k = .permissionDenied then .ok 0 else .error k
  | .entry _ (some k) _ => if k = .permissionDenied then .ok 0 else .error k
  | .entry _ none (.file sz) => .ok sz
  | .entry _ none t => calcHelpers t
end

/-- One collected first-layer entry: the child's name, whether its
metadata said it is a directory, and its computed size. -/
structure Entry : Type where
  name : String
  isDir : Bool
  size : Nat
deriving DecidableEq, Repr

/-- The per-child body of `main.rs`'s `get_first_layer_full_sizes`
(lines 66–78): the listing is pre-filtered with `filter_map(entry.ok())`,
then for each entry `metadata().ok()?` drops the child on any metadata
failure, and for a directory `calculate_total_size(..).ok()?` drops the
child on any accumulation failure. -/
def collectMainList : EntryList → List Entry
  | .nil => []
  | .cons (.iterErr _) rest => collectMainList rest
  | .cons (.entry _ (some _) _) rest => collectMainList rest
  | .cons (.entry n none (.file sz)) rest => ⟨n, false, sz⟩ :: collectMainList rest
  | .cons (.entry n none t) rest =>
    match calcMain t with
    | .ok sz => ⟨n, true, sz⟩ :: collectMainList rest
    | .error _ => collectMainList rest

/-- Embedding of `get_first_layer_full_sizes` from `src/main.rs` (lines 53–82): only the
root `fs::read_dir(start_path)?` can fail; every per-child failure is
absorbed by `filter_map`. (The `HashMap` result is modelled as the list
of collected entries; rayon parallelism only affects completion order.) -/
def collectMain : FsTree → Except ErrKind (List Entry)
  | .file _ => .error .otherErr
  | .dirErr k => .error k
  | .dirOk es => .ok (collectMainList es)

/-- The entry loop of `helpers.rs`'s `get_first_layer_full_sizes`
(lines 60–82): permission-denied iterator/metadata errors are skipped,
other such errors are returned, and a child's accumulation failure is
propagated by `calculate_total_size(&entry.path())?`. -/
def collectHelpersList : EntryList → Except ErrKind (List Entry)
  | .nil => .ok []
  | .cons (.iterErr k) rest =>
    if k = .permissionDenied then collectHelpersList rest else .error k
  | .cons (.entry _ (some k) _) rest =>
    if k = .permissionDenied then collectHelpersList rest else .error k
  | .cons (.entry n none (.file sz)) rest => do
    pure (⟨n, false, sz⟩ :: (← collectHelpersList rest))
  | .cons (.entry n none t) rest => do
    let sz ← calcHelpers t
    let r ← collectHelpersList rest
    pure (⟨n, true, sz⟩ :: r)

/-- Embedding of `get_first_layer_full_sizes` from `src/helpers.rs` (lines 41–85). -/
def collectHelpers : FsTree → Except ErrKind (List Entry)
  | .file _ => .error .otherErr
  | .dirErr k => .error k
  | .dirOk es => collectHelpersList es

mutual
/-- Specification-side definition, following the spec's words: "the sum
of byte lengths of all regular files in T, regardless of nesting depth".
Stated for comparison with the code-derived accumulators. -/
def specTotal : FsTree → Nat
  | .file sz => sz
  | .dirErr _ => 0
  | .dirOk es => specTotalList es

/-- Sum of `specTotal` over a listing. -/
def specTotalList : EntryList → Nat
  | .nil => 0
  | .cons e rest => specTotalEntry e + specTotalList rest

/-- Sum of file byte lengths below one raw entry. -/
def specTotalEntry : RawEntry → Nat
  | .iterErr _ => 0
  | .entry _ _ t => specTotal t
end

mutual
/-- Predicate for "no entry is access-restricted and no filesystem operation fails":
every listing succeeds, every iterator yield succeeds, every metadata
read succeeds. -/
def cleanTree : FsTree → Bool
  | .file _ => true
  | .dirErr _ => false
  | .dirOk es => cleanList es

/-- Conjunction of `cleanEntry` over a listing. -/
def cleanList : EntryList → Bool
  | .nil => true
  | .cons e rest => cleanEntry e && cleanList rest

/-- Cleanliness of one raw entry. -/
def cleanEntry : RawEntry → Bool
  | .iterErr _ => false
  | .entry _ (some _) _ => false
  | .entry _ none t => cleanTree t
end

mutual
/-- Every failure injected into the tree is a permission-denied failure
(the kind the accumulators absorb). A subtree hidden behind a failed
metadata read is never visited by the code, so it is unconstrained. -/
def permOnlyTree : FsTree → Bool
  | .file _ => true
  | .dirErr k => k = .permissionDenied
  | .dirOk es => permOnlyList es

/-- Conjunction of `permOnlyEntry` over a listing. -/
def permOnlyList : EntryList → Bool
  | .nil => true
  | .cons e rest => permOnlyEntry e && permOnlyList rest

/-- Permission-only condition on one raw entry. -/
def permOnlyEntry : RawEntry → Bool
  | .iterErr k => k = .permissionDenied
  | .entry _ (some k) _ => k = .permissionDenied
  | .entry _ none t => permOnlyTree t
end

/-- The names of the readable direct children of a listed directory:
entries whose iterator yield and metadata read both succeed.
Specification-side, used to state "one Entry per readable direct child". -/
def readableChildNames : EntryList → List String
  | .nil => []
  | .cons (.iterErr _) rest => readableChildNames rest
  | .cons (.entry _ (some _) _) rest => readableChildNames rest
  | .cons (.entry n none _) rest => n :: readableChildNames rest

/-- Sum of the sizes of a collected entry list (`folder_sizes.values().sum()`). -/
def sumSizes (l : List Entry) : Nat := (l.map Entry.size).foldr (· + ·) 0

/-- The stable descending-by-size sort that models Rust's
`sort_by_key(|(_, size)| std::cmp::Reverse(*size))` (`slice::sort_by_key`
is documented as a stable sort). -/
def sortBySizeDesc (l : List Entry) : List Entry :=
  List.insertionSort (fun a b => b.size ≤ a.size) l

/-- The row order of the rendered table in `main` (lines 221–270): the
collected entries are partitioned into folders (`path.is_dir()`) and
files, each group is sorted by size descending, and all folder rows are
added to the table before any file row. -/
def renderRows (es : List Entry) : List Entry :=
  sortBySizeDesc (es.filter (fun e => e.isDir)) ++
    sortBySizeDesc (es.filter (fun e => !e.isDir))

/-- The observable outcome of one run of `main` on a directory root:
whether the process exits non-zero, whether a fatal error message is
printed to standard error, and the rendered report rows (`none` when no
report is emitted). -/
structure ProgResult : Type where
  exitNonZero : Bool
  fatalMsgOnStderr : Bool
  report : Option (List Entry)
deriving DecidableEq, Repr

/-- Embedding of `main` from `src/main.rs` (lines 208–277) on a directory root: a
failing `get_first_layer_full_sizes` prints the error to standard error
and returns `Err(e)` (process exit code 1) before any report output;
otherwise the headline and table are printed and `main` returns `Ok(())`. -/
def runMain (root : FsTree) : ProgResult :=
  match collectMain root with
  | .error _ => ⟨true, true, none⟩
  | .ok es => ⟨false, false, some (renderRows es)⟩

/-- Modelled from the spec: the ReportPipeline `min-size` filter, which
is absent from the sources under `src/` (no threshold handling exists in
`main.rs` or `helpers.rs`); the spec says "drop entries whose `size` is
below a caller-supplied minimum threshold". -/
def minSizeFilter (t : Nat) (es : List Entry) : List Entry :=
  es.filter (fun e => t ≤ e.size)

/-- The fixed smart-ignore name set the spec describes (case-insensitive
match on the child's name). No such filtering exists in the sources under
`src/`; the definition is used to state the ignore claims. -/
def smartIgnoreNames : List String :=
  [".git", "node_modules", "target", "dist", "build", ".idea", ".vscode"]

/-- Whether an entry's metadata reports a directory (`metadata.is_dir()`):
true for both a readable and an unreadable directory node. -/
def isDirNode : FsTree → Bool
  | .file _ => false
  | .dirErr _ => true
  | .dirOk _ => true

/-- Totality of the descending-size comparison used by the sort. -/
instance : IsTotal Entry (fun a b => b.size ≤ a.size) :=
  ⟨fun a b => Nat.le_total b.size a.size⟩

/-- Transitivity of the descending-size comparison used by the sort. -/
instance : IsTrans Entry (fun a b => b.size ≤ a.size) :=
  ⟨fun _ _ _ hab hbc => Nat.le_trans hbc hab⟩

/-! ## Helper lemmas -/

/-- Reduction of `Except` bind on an error (the `?`/abort path). -/
theorem bind_error_eq {α β : Type} (k : ErrKind) (f : α → Except ErrKind β) :
    (Except.error k >>= f : Except ErrKind β) = .error k := rfl

/-- Reduction of `Except` bind on a success. -/
theorem bind_ok_eq {α β : Type} (a : α) (f : α → Except ErrKind β) :
    (Except.ok a >>= f : Except ErrKind β) = f a := rfl

/-- Reduction of `Except` pure. -/
theorem pure_eq {α : Type} (a : α) :
    (pure a : Except ErrKind α) = .ok a := rfl

/-- Reduction of `Except` map on an error. -/
theorem map_error_eq {α β : Type} (k : ErrKind) (f : α → β) :
    (f <$> (Except.error k : Except ErrKind α)) = .error k := rfl

/-- Reduction of `Except` map on a success. -/
theorem map_ok_eq {α β : Type} (a : α) (f : α → β) :
    (f <$> (Except.ok a : Except ErrKind α)) = .ok (f a) := rfl

mutual
/-- On a clean listing, `main.rs`'s entry loop computes the sum of all
file byte lengths below the listing. -/
theorem calcMainList_clean : ∀ es, cleanList es = true →
    calcMainList es = .ok (specTotalList es)
  | .nil, _ => rfl
  | .cons e rest, h => by
    have h' : cleanEntry e = true ∧ cleanList rest = true := by
      simpa [cleanList, Bool.and_eq_true] using h
    rw [calcMainList, calcMainEntry_clean e h'.1, calcMainList_clean rest h'.2]
    rfl

/-- On a clean entry, one iteration of `main.rs`'s entry loop computes
the sum of all file byte lengths below the entry. -/
theorem calcMainEntry_clean : ∀ e, cleanEntry e = true →
    calcMainEntry e = .ok (specTotalEntry e)
  | .iterErr _, h => by simp [cleanEntry] at h
  | .entry _ (some _) _, h => by simp [cleanEntry] at h
  | .entry _ none (.file sz), _ => rfl
  | .entry _ none (.dirErr _), h => by simp [cleanEntry, cleanTree] at h
  | .entry n none (.dirOk es), h => by
    have h' : cleanList es = true := by simpa [cleanEntry, cleanTree] using h
    have hstep : calcMainEntry (.entry n none (.dirOk es)) = calcMainList es := rfl
    rw [hstep, calcMainList_clean es h']
    rfl
end

mutual
/-- On a clean listing, `helpers.rs`'s entry loop computes the sum of all
file byte lengths below the listing. -/
theorem calcHelpersList_clean : ∀ es, cleanList es = true →
    calcHelpersList es = .ok (specTotalList es)
  | .nil, _ => rfl
  | .cons e rest, h => by
    have h' : cleanEntry e = true ∧ cleanList rest = true := by
      simpa [cleanList, Bool.and_eq_true] using h
    rw [calcHelpersList, calcHelpersEntry_clean e h'.1,
      calcHelpersList_clean rest h'.2]
    rfl

/-- On a clean entry, one iteration of `helpers.rs`'s entry loop computes
the sum of all file byte lengths below the entry. -/
theorem calcHelpersEntry_clean : ∀ e, cleanEntry e = true →
    calcHelpersEntry e = .ok (specTotalEntry e)
  | .iterErr _, h => by simp [cleanEntry] at h
  | .entry _ (some _) _, h => by simp [cleanEntry] at h
  | .entry _ none (.file sz), _ => rfl
  | .entry _ none (.dirErr _), h => by simp [cleanEntry, cleanTree] at h
  | .entry n none (.dirOk es), h => by
    have h' : cleanList es = true := by simpa [cleanEntry, cleanTree] using h
    have hstep : calcHelpersEntry (.entry n none (.dirOk es)) = calcHelpersList es := rfl
    rw [hstep, calcHelpersList_clean es h']
    rfl
end

mutual
/-- A permission-denied error never escapes `main.rs`'s
`calculate_total_size`: every escaping error has a different kind. -/
theorem calcMain_ne_pd : ∀ t, calcMain t ≠ .error .permissionDenied
  | .file _ => by simp [calcMain]
  | .dirErr k => by
    by_cases hk : k = .permissionDenied <;> simp [calcMain, hk]
  | .dirOk es => calcMainList_ne_pd es

/-- A permission-denied error never escapes `main.rs`'s entry loop. -/
theorem calcMainList_ne_pd : ∀ es, calcMainList es ≠ .error .permissionDenied
  | .nil => by simp [calcMainList]
  | .cons e rest => by
    have he := calcMainEntry_ne_pd e
    have hr := calcMainList_ne_pd rest
    rw [calcMainList]
    cases h1 : calcMainEntry e with
    | error k =>
      rw [h1] at he
      simpa [bind_error_eq] using he
    | ok s =>
      cases h2 : calcMainList rest with
      | error k =>
        rw [h2] at hr
        simpa [bind_ok_eq, map_error_eq, bind_error_eq] using hr
      | ok r => simp [bind_ok_eq, map_ok_eq]

/-- A permission-denied error never escapes one iteration of `main.rs`'s
entry loop. -/
theorem calcMainEntry_ne_pd : ∀ e, calcMainEntry e ≠ .error .permissionDenied
  | .iterErr k => by
    by_cases hk : k = .permissionDenied <;> simp [calcMainEntry, hk]
  | .entry _ (some k) _ => by
    by_cases hk : k = .permissionDenied <;> simp [calcMainEntry, hk]
  | .entry _ none (.file sz) => by simp [calcMainEntry]
  | .entry _ none (.dirErr k) => calcMain_ne_pd (.dirErr k)
  | .entry _ none (.dirOk es) => calcMain_ne_pd (.dirOk es)
end

mutual
/-- On a permission-only tree that is a directory, `main.rs`'s
`calculate_total_size` succeeds. -/
theorem calcMain_permOnly : ∀ t, permOnlyTree t = true → isDirNode t = true →
    ∃ v, calcMain t = .ok v
  | .file _, _, hd => by simp [isDirNode] at hd
  | .dirErr k, hp, _ => by
    have : k = ErrKind.permissionDenied := by
      simpa [permOnlyTree, decide_eq_true_eq] using hp
    exact ⟨0, by simp [calcMain, this]⟩
  | .dirOk es, hp, _ =>
    calcMainList_permOnly es (by simpa [permOnlyTree] using hp)

/-- On a permission-only listing, `main.rs`'s entry loop succeeds. -/
theorem calcMainList_permOnly : ∀ es, permOnlyList es = true →
    ∃ v, calcMainList es = .ok v
  | .nil, _ => ⟨0, rfl⟩
  | .cons e rest, h => by
    have h' : permOnlyEntry e = true ∧ permOnlyList rest = true := by
      simpa [permOnlyList, Bool.and_eq_true] using h
    obtain ⟨s, hs⟩ := calcMainEntry_permOnly e h'.1
    obtain ⟨r, hr⟩ := calcMainList_permOnly rest h'.2
    exact ⟨s + r, by rw [calcMainList, hs, hr]; rfl⟩

/-- On a permission-only entry, one iteration of `main.rs`'s entry loop
succeeds. -/
theorem calcMainEntry_permOnly : ∀ e, permOnlyEntry e = true →
    ∃ v, calcMainEntry e = .ok v
  | .iterErr k, h => by
    have : k = ErrKind.permissionDenied := by
      simpa [permOnlyEntry, decide_eq_true_eq] using h
    exact ⟨0, by simp [calcMainEntry, this]⟩
  | .entry _ (some k) _, h => by
    have : k = ErrKind.permissionDenied := by
      simpa [permOnlyEntry, decide_eq_true_eq] using h
    exact ⟨0, by simp [calcMainEntry, this]⟩
  | .entry _ none (.file sz), _ => ⟨sz, rfl⟩
  | .entry n none (.dirErr k), h => by
    have hp : permOnlyTree (FsTree.dirErr k) = true := by
      simpa [permOnlyEntry] using h
    obtain ⟨v, hv⟩ := calcMain_permOnly (.dirErr k) hp rfl
    exact ⟨v, by rw [show calcMainEntry (.entry n none (.dirErr k)) =
      calcMain (.dirErr k) from rfl, hv]⟩
  | .entry n none (.dirOk es), h => by
    have hp : permOnlyTree (FsTree.dirOk es) = true := by
      simpa [permOnlyEntry] using h
    obtain ⟨v, hv⟩ := calcMain_permOnly (.dirOk es) hp rfl
    exact ⟨v, by rw [show calcMainEntry (.entry n none (.dirOk es)) =
      calcMain (.dirOk es) from rfl, hv]⟩
end


/-- Unfolding of `sumSizes` on a cons. -/
theorem sumSizes_cons (e : Entry) (l : List Entry) :
    sumSizes (e :: l) = e.size + sumSizes l := rfl

/-- On a permission-only listing, `main.rs`'s `calculate_total_size`
returns exactly the sum of the sizes its collector reports for the same
listing. -/
theorem calcMainList_eq_sumSizes : ∀ es, permOnlyList es = true →
    calcMainList es = .ok (sumSizes (collectMainList es))
  | .nil, _ => rfl
  | .cons (.iterErr k) rest, h => by
    obtain ⟨hk, hrest⟩ : k = ErrKind.permissionDenied ∧ permOnlyList rest = true := by
      simpa [permOnlyList, permOnlyEntry, Bool.and_eq_true, decide_eq_true_eq] using h
    subst hk
    have ih := calcMainList_eq_sumSizes rest hrest
    have hc : collectMainList (.cons (.iterErr .permissionDenied) rest) =
        collectMainList rest := rfl
    rw [calcMainList, hc]
    have he : calcMainEntry (.iterErr ErrKind.permissionDenied) = .ok 0 := by
      simp [calcMainEntry]
    rw [he, bind_ok_eq, ih, bind_ok_eq, pure_eq, Nat.zero_add]
  | .cons (.entry n (some k) t) rest, h => by
    obtain ⟨hk, hrest⟩ : k = ErrKind.permissionDenied ∧ permOnlyList rest = true := by
      simpa [permOnlyList, permOnlyEntry, Bool.and_eq_true, decide_eq_true_eq] using h
    subst hk
    have ih := calcMainList_eq_sumSizes rest hrest
    have hc : collectMainList (.cons (.entry n (some .permissionDenied) t) rest) =
        collectMainList rest := rfl
    rw [calcMainList, hc]
    have he : calcMainEntry (.entry n (some ErrKind.permissionDenied) t) = .ok 0 := by
      simp [calcMainEntry]
    rw [he, bind_ok_eq, ih, bind_ok_eq, pure_eq, Nat.zero_add]
  | .cons (.entry n none (.file sz)) rest, h => by
    obtain ⟨-, hrest⟩ : permOnlyEntry (.entry n none (.file sz)) = true ∧
        permOnlyList rest = true := by
      simpa [permOnlyList, Bool.and_eq_true] using h
    have ih := calcMainList_eq_sumSizes rest hrest
    have hc : collectMainList (.cons (.entry n none (.file sz)) rest) =
        ⟨n, false, sz⟩ :: collectMainList rest := rfl
    rw [calcMainList, hc]
    have he : calcMainEntry (.entry n none (.file sz)) = .ok sz := rfl
    rw [he, bind_ok_eq, ih, bind_ok_eq, pure_eq, sumSizes_cons]
  | .cons (.entry n none (.dirErr k)) rest, h => by
    obtain ⟨hk, hrest⟩ : k = ErrKind.permissionDenied ∧ permOnlyList rest = true := by
      simpa [permOnlyList, permOnlyEntry, permOnlyTree, Bool.and_eq_true,
        decide_eq_true_eq] using h
    subst hk
    have ih := calcMainList_eq_sumSizes rest hrest
    have hv : calcMain (.dirErr ErrKind.permissionDenied) = .ok 0 := by
      simp [calcMain]
    have hc : collectMainList (.cons (.entry n none (.dirErr .permissionDenied)) rest) =
        ⟨n, true, 0⟩ :: collectMainList rest := by
      have hstep : collectMainList
          (.cons (.entry n none (.dirErr .permissionDenied)) rest) =
          (match calcMain (.dirErr .permissionDenied) with
            | .ok sz => (⟨n, true, sz⟩ : Entry) :: collectMainList rest
            | .error _ => collectMainList rest) := rfl
      rw [hstep, hv]
    have he : calcMainEntry (.entry n none (.dirErr ErrKind.permissionDenied)) =
        calcMain (.dirErr ErrKind.permissionDenied) := rfl
    rw [calcMainList, hc, he, hv, bind_ok_eq, ih, bind_ok_eq, pure_eq, sumSizes_cons]
  | .cons (.entry n none (.dirOk es')) rest, h => by
    obtain ⟨hes, hrest⟩ : permOnlyList es' = true ∧ permOnlyList rest = true := by
      simpa [permOnlyList, permOnlyEntry, permOnlyTree, Bool.and_eq_true] using h
    have ih := calcMainList_eq_sumSizes rest hrest
    obtain ⟨v, hv⟩ := calcMain_permOnly (.dirOk es') (by simpa [permOnlyTree] using hes) rfl
    have hc : collectMainList (.cons (.entry n none (.dirOk es')) rest) =
        ⟨n, true, v⟩ :: collectMainList rest := by
      have hstep : collectMainList (.cons (.entry n none (.dirOk es')) rest) =
          (match calcMain (.dirOk es') with
            | .ok sz => (⟨n, true, sz⟩ : Entry) :: collectMainList rest
            | .error _ => collectMainList rest) := rfl
      rw [hstep, hv]
    have he : calcMainEntry (.entry n none (.dirOk es')) = calcMain (.dirOk es') := rfl
    rw [calcMainList, hc, he, hv, bind_ok_eq, ih, bind_ok_eq, pure_eq, sumSizes_cons]

/-- On a permission-only listing, the names of the entries `main.rs`'s
collector reports are exactly the names of the readable direct children,
in listing order — no name is excluded and none is duplicated. -/
theorem collectMainList_names : ∀ es, permOnlyList es = true →
    (collectMainList es).map Entry.name = readableChildNames es
  | .nil, _ => rfl
  | .cons (.iterErr k) rest, h => by
    obtain ⟨-, hrest⟩ : k = ErrKind.permissionDenied ∧ permOnlyList rest = true := by
      simpa [permOnlyList, permOnlyEntry, Bool.and_eq_true, decide_eq_true_eq] using h
    have ih := collectMainList_names rest hrest
    have hc : collectMainList (.cons (.iterErr k) rest) = collectMainList rest := rfl
    have hn : readableChildNames (.cons (.iterErr k) rest) = readableChildNames rest := rfl
    rw [hc, hn, ih]
  | .cons (.entry n (some k) t) rest, h => by
    obtain ⟨-, hrest⟩ : k = ErrKind.permissionDenied ∧ permOnlyList rest = true := by
      simpa [permOnlyList, permOnlyEntry, Bool.and_eq_true, decide_eq_true_eq] using h
    have ih := collectMainList_names rest hrest
    have hc : collectMainList (.cons (.entry n (some k) t) rest) =
        collectMainList rest := rfl
    have hn : readableChildNames (.cons (.entry n (some k) t) rest) =
        readableChildNames rest := rfl
    rw [hc, hn, ih]
  | .cons (.entry n none (.file sz)) rest, h => by
    obtain ⟨-, hrest⟩ : permOnlyEntry (.entry n none (.file sz)) = true ∧
        permOnlyList rest = true := by
      simpa [permOnlyList, Bool.and_eq_true] using h
    have ih := collectMainList_names rest hrest
    have hc : collectMainList (.cons (.entry n none (.file sz)) rest) =
        ⟨n, false, sz⟩ :: collectMainList rest := rfl
    rw [hc, List.map_cons, ih]
    rfl
  | .cons (.entry n none (.dirErr k)) rest, h => by
    obtain ⟨hk, hrest⟩ : k = ErrKind.permissionDenied ∧ permOnlyList rest = true := by
      simpa [permOnlyList, permOnlyEntry, permOnlyTree, Bool.and_eq_true,
        decide_eq_true_eq] using h
    subst hk
    have ih := collectMainList_names rest hrest
    have hv : calcMain (.dirErr ErrKind.permissionDenied) = .ok 0 := by
      simp [calcMain]
    have hc : collectMainList (.cons (.entry n none (.dirErr .permissionDenied)) rest) =
        ⟨n, true, 0⟩ :: collectMainList rest := by
      have hstep : collectMainList
          (.cons (.entry n none (.dirErr .permissionDenied)) rest) =
          (match calcMain (.dirErr .permissionDenied) with
            | .ok sz => (⟨n, true, sz⟩ : Entry) :: collectMainList rest
            | .error _ => collectMainList rest) := rfl
      rw [hstep, hv]
    rw [hc, List.map_cons, ih]
    rfl
  | .cons (.entry n none (.dirOk es')) rest, h => by
    obtain ⟨hes, hrest⟩ : permOnlyList es' = true ∧ permOnlyList rest = true := by
      simpa [permOnlyList, permOnlyEntry, permOnlyTree, Bool.and_eq_true] using h
    have ih := collectMainList_names rest hrest
    obtain ⟨v, hv⟩ := calcMain_permOnly (.dirOk es') (by simpa [permOnlyTree] using hes) rfl
    have hc : collectMainList (.cons (.entry n none (.dirOk es')) rest) =
        ⟨n, true, v⟩ :: collectMainList rest := by
      have hstep : collectMainList (.cons (.entry n none (.dirOk es')) rest) =
          (match calcMain (.dirOk es') with
            | .ok sz => (⟨n, true, sz⟩ : Entry) :: collectMainList rest
            | .error _ => collectMainList rest) := rfl
      rw [hstep, hv]
    rw [hc, List.map_cons, ih]
    rfl


/-- Unfolding of `main.rs`'s collector body on a directory child: the
child is kept with the accumulated size when `calculate_total_size`
succeeds and dropped when it fails. -/
theorem collectMainList_cons_dir (n : String) (t : FsTree) (rest : EntryList)
    (hd : isDirNode t = true) :
    collectMainList (.cons (.entry n none t) rest) =
      (match calcMain t with
        | .ok sz => (⟨n, true, sz⟩ : Entry) :: collectMainList rest
        | .error _ => collectMainList rest) := by
  cases t with
  | file sz => simp [isDirNode] at hd
  | dirErr k => rfl
  | dirOk es => rfl

/-- Unfolding of `helpers.rs`'s collector body on a directory child: the
child's accumulation result is propagated with `?`. -/
theorem collectHelpersList_cons_dir (n : String) (t : FsTree) (rest : EntryList)
    (hd : isDirNode t = true) :
    collectHelpersList (.cons (.entry n none t) rest) =
      (do
        let sz ← calcHelpers t
        let r ← collectHelpersList rest
        pure ((⟨n, true, sz⟩ : Entry) :: r)) := by
  cases t with
  | file sz => simp [isDirNode] at hd
  | dirErr k => rfl
  | dirOk es => rfl

/-- The collector of `main.rs` distributes over listing concatenation:
each child is handled independently of its siblings. -/
theorem collectMainList_append : ∀ xs ys : EntryList,
    collectMainList (xs.append ys) = collectMainList xs ++ collectMainList ys
  | .nil, ys => rfl
  | .cons (.iterErr k) xs, ys => collectMainList_append xs ys
  | .cons (.entry n (some k) t) xs, ys => collectMainList_append xs ys
  | .cons (.entry n none (.file sz)) xs, ys => by
    have h1 : EntryList.append (.cons (.entry n none (.file sz)) xs) ys =
        .cons (.entry n none (.file sz)) (xs.append ys) := rfl
    have h2 : ∀ zs, collectMainList (.cons (.entry n none (.file sz)) zs) =
        ⟨n, false, sz⟩ :: collectMainList zs := fun _ => rfl
    rw [h1, h2 (xs.append ys), h2 xs, collectMainList_append xs ys]
    rfl
  | .cons (.entry n none (.dirErr k)) xs, ys => by
    have h1 : EntryList.append (.cons (.entry n none (.dirErr k)) xs) ys =
        .cons (.entry n none (.dirErr k)) (xs.append ys) := rfl
    rw [h1, collectMainList_cons_dir n (.dirErr k) (xs.append ys) rfl,
      collectMainList_cons_dir n (.dirErr k) xs rfl]
    cases hv : calcMain (.dirErr k) with
    | ok v => simp [collectMainList_append xs ys]
    | error e => simp [collectMainList_append xs ys]
  | .cons (.entry n none (.dirOk es)) xs, ys => by
    have h1 : EntryList.append (.cons (.entry n none (.dirOk es)) xs) ys =
        .cons (.entry n none (.dirOk es)) (xs.append ys) := rfl
    rw [h1, collectMainList_cons_dir n (.dirOk es) (xs.append ys) rfl,
      collectMainList_cons_dir n (.dirOk es) xs rfl]
    cases hv : calcMain (.dirOk es) with
    | ok v => simp [collectMainList_append xs ys]
    | error e => simp [collectMainList_append xs ys]

/-- The accumulator loop of `main.rs` over a concatenation: the two
halves are accumulated independently and their totals added, with an
error in either half propagating. -/
theorem calcMainList_append : ∀ xs ys : EntryList,
    calcMainList (xs.append ys) =
      (calcMainList xs >>= fun a => calcMainList ys >>= fun b => pure (a + b))
  | .nil, ys => by
    have h0 : calcMainList EntryList.nil = .ok 0 := rfl
    have h1 : EntryList.append .nil ys = ys := rfl
    rw [h1, h0, bind_ok_eq]
    cases hy : calcMainList ys with
    | ok b => rw [bind_ok_eq, pure_eq, Nat.zero_add]
    | error k => rw [bind_error_eq]
  | .cons e xs, ys => by
    have h1 : EntryList.append (.cons e xs) ys = .cons e (xs.append ys) := rfl
    rw [h1, calcMainList, calcMainList, calcMainList_append xs ys]
    cases he : calcMainEntry e with
    | error k => simp only [bind_error_eq]
    | ok s =>
      cases hx : calcMainList xs with
      | error k =>
        simp only [bind_ok_eq, bind_error_eq, map_error_eq]
      | ok a =>
        cases hy : calcMainList ys with
        | error k =>
          simp only [bind_ok_eq, bind_error_eq, pure_eq, map_error_eq]
        | ok b =>
          simp only [bind_ok_eq, pure_eq, map_ok_eq]
          simp [Nat.add_assoc]

/-- When every child in a prefix is collected successfully by
`helpers.rs`'s collector and a later directory child's accumulation
fails, the whole helpers scan fails with that error. -/
theorem collectHelpersList_abort : ∀ xs : EntryList, ∀ l : List Entry,
    collectHelpersList xs = .ok l →
    ∀ (n : String) (t : FsTree) (k : ErrKind) (rest : EntryList),
    isDirNode t = true → calcHelpers t = .error k →
    collectHelpersList (xs.append (.cons (.entry n none t) rest)) = .error k
  | .nil, l, _, n, t, k, rest, hd, hcalc => by
    have h1 : EntryList.append .nil (.cons (.entry n none t) rest) =
        .cons (.entry n none t) rest := rfl
    rw [h1, collectHelpersList_cons_dir n t rest hd, hcalc, bind_error_eq]
  | .cons (.iterErr k') xs, l, hok, n, t, k, rest, hd, hcalc => by
    have h1 : EntryList.append (.cons (.iterErr k') xs) (.cons (.entry n none t) rest) =
        .cons (.iterErr k') (xs.append (.cons (.entry n none t) rest)) := rfl
    rw [h1]
    by_cases hk : k' = ErrKind.permissionDenied
    · subst hk
      have h2 : ∀ zs, collectHelpersList (.cons (.iterErr ErrKind.permissionDenied) zs) =
          collectHelpersList zs := by
        intro zs
        simp [collectHelpersList]
      rw [h2] at hok
      rw [h2]
      exact collectHelpersList_abort xs l hok n t k rest hd hcalc
    · exfalso
      have h2 : collectHelpersList (.cons (.iterErr k') xs) = .error k' := by
        simp [collectHelpersList, hk]
      rw [h2] at hok
      exact Except.noConfusion hok
  | .cons (.entry n' (some k') t') xs, l, hok, n, t, k, rest, hd, hcalc => by
    have h1 : EntryList.append (.cons (.entry n' (some k') t') xs)
        (.cons (.entry n none t) rest) =
        .cons (.entry n' (some k') t') (xs.append (.cons (.entry n none t) rest)) := rfl
    rw [h1]
    by_cases hk : k' = ErrKind.permissionDenied
    · subst hk
      have h2 : ∀ zs, collectHelpersList
          (.cons (.entry n' (some ErrKind.permissionDenied) t') zs) =
          collectHelpersList zs := by
        intro zs
        simp [collectHelpersList]
      rw [h2] at hok
      rw [h2]
      exact collectHelpersList_abort xs l hok n t k rest hd hcalc
    · exfalso
      have h2 : collectHelpersList (.cons (.entry n' (some k') t') xs) = .error k' := by
        simp [collectHelpersList, hk]
      rw [h2] at hok
      exact Except.noConfusion hok
  | .cons (.entry n' none (.file sz)) xs, l, hok, n, t, k, rest, hd, hcalc => by
    have h1 : EntryList.append (.cons (.entry n' none (.file sz)) xs)
        (.cons (.entry n none t) rest) =
        .cons (.entry n' none (.file sz)) (xs.append (.cons (.entry n none t) rest)) := rfl
    rw [h1]
    cases hx : collectHelpersList xs with
    | error k'' =>
      exfalso
      have h2 : collectHelpersList (.cons (.entry n' none (.file sz)) xs) =
          .error k'' := by
        rw [collectHelpersList, hx]
        rfl
      rw [h2] at hok
      exact Except.noConfusion hok
    | ok l' =>
      have ih := collectHelpersList_abort xs l' hx n t k rest hd hcalc
      rw [collectHelpersList, ih]
      rfl
  | .cons (.entry n' none (.dirErr k')) xs, l, hok, n, t, k, rest, hd, hcalc => by
    have h1 : EntryList.append (.cons (.entry n' none (.dirErr k')) xs)
        (.cons (.entry n none t) rest) =
        .cons (.entry n' none (.dirErr k')) (xs.append (.cons (.entry n none t) rest)) := rfl
    rw [h1, collectHelpersList_cons_dir n' (.dirErr k')
      (xs.append (.cons (.entry n none t) rest)) rfl]
    rw [collectHelpersList_cons_dir n' (.dirErr k') xs rfl] at hok
    cases hv : calcHelpers (.dirErr k') with
    | error e =>
      exfalso
      rw [hv, bind_error_eq] at hok
      exact Except.noConfusion hok
    | ok v =>
      rw [hv, bind_ok_eq] at hok
      rw [bind_ok_eq]
      cases hx : collectHelpersList xs with
      | error k'' =>
        exfalso
        rw [hx, bind_error_eq] at hok
        exact Except.noConfusion hok
      | ok l' =>
        have ih := collectHelpersList_abort xs l' hx n t k rest hd hcalc
        rw [ih, bind_error_eq]
  | .cons (.entry n' none (.dirOk es')) xs, l, hok, n, t, k, rest, hd, hcalc => by
    have h1 : EntryList.append (.cons (.entry n' none (.dirOk es')) xs)
        (.cons (.entry n none t) rest) =
        .cons (.entry n' none (.dirOk es')) (xs.append (.cons (.entry n none t) rest)) := rfl
    rw [h1, collectHelpersList_cons_dir n' (.dirOk es')
      (xs.append (.cons (.entry n none t) rest)) rfl]
    rw [collectHelpersList_cons_dir n' (.dirOk es') xs rfl] at hok
    cases hv : calcHelpers (.dirOk es') with
    | error e =>
      exfalso
      rw [hv, bind_error_eq] at hok
      exact Except.noConfusion hok
    | ok v =>
      rw [hv, bind_ok_eq] at hok
      rw [bind_ok_eq]
      cases hx : collectHelpersList xs with
      | error k'' =>
        exfalso
        rw [hx, bind_error_eq] at hok
        exact Except.noConfusion hok
      | ok l' =>
        have ih := collectHelpersList_abort xs l' hx n t k rest hd hcalc
        rw [ih, bind_error_eq]


/-- Filtering an `orderedInsert` by an exact size class: every element
skipped before the insertion point has strictly larger size, so an
inserted entry of the class lands in front of the class and otherwise the
class is untouched. -/
theorem filter_size_orderedInsert (x : Entry) (s : Nat) : ∀ l : List Entry,
    (List.orderedInsert (fun a b => b.size ≤ a.size) x l).filter
        (fun e => e.size == s) =
      if x.size == s then x :: l.filter (fun e => e.size == s)
      else l.filter (fun e => e.size == s)
  | [] => by
    cases hx : x.size == s <;> simp [List.orderedInsert, List.filter, hx]
  | y :: l => by
    have ih := filter_size_orderedInsert x s l
    by_cases hr : y.size ≤ x.size
    · have hoi : List.orderedInsert (fun a b => b.size ≤ a.size) x (y :: l) =
          x :: y :: l := List.orderedInsert_of_le _ _ hr
      rw [hoi]
      by_cases hx : x.size = s <;> by_cases hy : y.size = s <;>
        simp [List.filter_cons, hx, hy]
    · have hoi : List.orderedInsert (fun a b => b.size ≤ a.size) x (y :: l) =
          y :: List.orderedInsert (fun a b => b.size ≤ a.size) x l := by
        simp [List.orderedInsert, hr]
      rw [hoi]
      have hlt : x.size < y.size := Nat.lt_of_not_le hr
      by_cases hx : x.size = s <;> by_cases hy : y.size = s
      · omega
      · simp [List.filter_cons, hx, hy, ih]
      · simp [List.filter_cons, hx, hy, ih]
      · simp [List.filter_cons, hx, hy, ih]

/-- Stability of the descending-size sort: each exact-size class of the
output is the exact-size class of the input, in the input's order. -/
theorem filter_size_sortBySizeDesc (s : Nat) : ∀ l : List Entry,
    (sortBySizeDesc l).filter (fun e => e.size == s) =
      l.filter (fun e => e.size == s)
  | [] => rfl
  | x :: l => by
    have ih := filter_size_sortBySizeDesc s l
    have h1 : sortBySizeDesc (x :: l) =
        List.orderedInsert (fun a b => b.size ≤ a.size) x (sortBySizeDesc l) := rfl
    rw [h1, filter_size_orderedInsert x s (sortBySizeDesc l), ih]
    by_cases hx : x.size = s <;> simp [List.filter_cons, hx]

/-- The descending-size sort orders its output by non-increasing size. -/
theorem sortBySizeDesc_sorted (l : List Entry) :
    List.Sorted (fun a b => b.size ≤ a.size) (sortBySizeDesc l) :=
  List.sorted_insertionSort _ l

/-- The descending-size sort permutes its input. -/
theorem sortBySizeDesc_perm (l : List Entry) :
    List.Perm (sortBySizeDesc l) l :=
  List.perm_insertionSort _ l

/-- Membership is preserved by the descending-size sort. -/
theorem mem_sortBySizeDesc {e : Entry} {l : List Entry} :
    e ∈ sortBySizeDesc l ↔ e ∈ l :=
  List.mem_insertionSort _


/-- Skipping a permission-denied iterator yield is the same as continuing
with the remaining entries (`main.rs` accumulator). -/
theorem calcMainList_skip_iterPD (rest : EntryList) :
    calcMainList (.cons (.iterErr .permissionDenied) rest) = calcMainList rest := by
  have he : calcMainEntry (.iterErr .permissionDenied) = .ok 0 := by
    simp [calcMainEntry]
  rw [calcMainList, he, bind_ok_eq]
  cases hr : calcMainList rest with
  | ok r => rw [bind_ok_eq, pure_eq, Nat.zero_add]
  | error k => rw [bind_error_eq]

/-- Skipping a permission-denied metadata read is the same as continuing
with the remaining entries (`main.rs` accumulator). -/
theorem calcMainList_skip_metaPD (n : String) (t : FsTree) (rest : EntryList) :
    calcMainList (.cons (.entry n (some .permissionDenied) t) rest) =
      calcMainList rest := by
  have he : calcMainEntry (.entry n (some .permissionDenied) t) = .ok 0 := by
    simp [calcMainEntry]
  rw [calcMainList, he, bind_ok_eq]
  cases hr : calcMainList rest with
  | ok r => rw [bind_ok_eq, pure_eq, Nat.zero_add]
  | error k => rw [bind_error_eq]

/-! ## Claims -/

/-- C1: For every directory tree in which no entry is access-restricted
and no filesystem operation fails, `calculate_total_size` applied to the
tree's root returns exactly the sum of the byte lengths of all regular
files nested anywhere below it, at any depth (in both the `main.rs` and
the `helpers.rs` revision); in particular an empty directory accumulates
to 0. -/
theorem C1_calc_total_size (es : EntryList) (h : cleanList es = true) :
    calcMain (.dirOk es) = .ok (specTotalList es) ∧
    calcHelpers (.dirOk es) = .ok (specTotalList es) ∧
    calcMain (.dirOk .nil) = .ok 0 ∧ calcHelpers (.dirOk .nil) = .ok 0 :=
  ⟨calcMainList_clean es h, calcHelpersList_clean es h, rfl, rfl⟩

/-- Witness for C1 at the spec's example tree: `a.txt` (13 bytes) plus
`sub/` containing `b.txt` (17 bytes) accumulates to 30 in both revisions. -/
theorem C1_calc_total_size_witness :
    cleanList (.cons (.entry "a.txt" none (.file 13))
      (.cons (.entry "sub" none
        (.dirOk (.cons (.entry "b.txt" none (.file 17)) .nil))) .nil)) = true ∧
    calcMain (.dirOk (.cons (.entry "a.txt" none (.file 13))
      (.cons (.entry "sub" none
        (.dirOk (.cons (.entry "b.txt" none (.file 17)) .nil))) .nil))) = .ok 30 ∧
    calcHelpers (.dirOk (.cons (.entry "a.txt" none (.file 13))
      (.cons (.entry "sub" none
        (.dirOk (.cons (.entry "b.txt" none (.file 17)) .nil))) .nil))) = .ok 30 := by
  refine ⟨rfl, ?_, ?_⟩
  · have h := (C1_calc_total_size (.cons (.entry "a.txt" none (.file 13))
      (.cons (.entry "sub" none
        (.dirOk (.cons (.entry "b.txt" none (.file 17)) .nil))) .nil)) rfl).1
    rw [h]
    rfl
  · have h := (C1_calc_total_size (.cons (.entry "a.txt" none (.file 13))
      (.cons (.entry "sub" none
        (.dirOk (.cons (.entry "b.txt" none (.file 17)) .nil))) .nil)) rfl).2.1
    rw [h]
    rfl

/-- C2: For every readable root directory (the code has no ignore list,
equivalently the ignore list is empty, and always recurses to full
depth), when every injected failure is permission-denied,
`get_first_layer_full_sizes` of `main.rs` returns exactly one entry per
readable direct child of the root, in listing order, and the sum of all
returned entry sizes equals what `calculate_total_size` returns on the
root. -/
theorem C2_first_layer_vs_total (es : EntryList) (h : permOnlyList es = true) :
    collectMain (.dirOk es) = .ok (collectMainList es) ∧
    (collectMainList es).map Entry.name = readableChildNames es ∧
    calcMain (.dirOk es) = .ok (sumSizes (collectMainList es)) :=
  ⟨rfl, collectMainList_names es h, calcMainList_eq_sumSizes es h⟩

/-- Witness for C2 at a root with a 13-byte file, a subdirectory holding
a 17-byte file, a permission-denied subdirectory and a permission-denied
iterator slot: three readable children are reported and the sizes sum to
the accumulator's 30. -/
theorem C2_first_layer_vs_total_witness :
    permOnlyList (.cons (.entry "a.txt" none (.file 13))
      (.cons (.entry "sub" none
        (.dirOk (.cons (.entry "b.txt" none (.file 17)) .nil)))
      (.cons (.entry "locked" none (.dirErr .permissionDenied))
      (.cons (.iterErr .permissionDenied) .nil)))) = true ∧
    (collectMainList (.cons (.entry "a.txt" none (.file 13))
      (.cons (.entry "sub" none
        (.dirOk (.cons (.entry "b.txt" none (.file 17)) .nil)))
      (.cons (.entry "locked" none (.dirErr .permissionDenied))
      (.cons (.iterErr .permissionDenied) .nil))))).map Entry.name =
      ["a.txt", "sub", "locked"] ∧
    calcMain (.dirOk (.cons (.entry "a.txt" none (.file 13))
      (.cons (.entry "sub" none
        (.dirOk (.cons (.entry "b.txt" none (.file 17)) .nil)))
      (.cons (.entry "locked" none (.dirErr .permissionDenied))
      (.cons (.iterErr .permissionDenied) .nil))))) = .ok 30 := by
  refine ⟨rfl, ?_, ?_⟩
  · have h := (C2_first_layer_vs_total (.cons (.entry "a.txt" none (.file 13))
      (.cons (.entry "sub" none
        (.dirOk (.cons (.entry "b.txt" none (.file 17)) .nil)))
      (.cons (.entry "locked" none (.dirErr .permissionDenied))
      (.cons (.iterErr .permissionDenied) .nil)))) rfl).2.1
    rw [h]
    rfl
  · have h := (C2_first_layer_vs_total (.cons (.entry "a.txt" none (.file 13))
      (.cons (.entry "sub" none
        (.dirOk (.cons (.entry "b.txt" none (.file 17)) .nil)))
      (.cons (.entry "locked" none (.dirErr .permissionDenied))
      (.cons (.iterErr .permissionDenied) .nil)))) rfl).2.2
    rw [h]
    rfl

/-- C7: For every invocation whose root path is unreadable, the program
exits with a non-zero status after printing an error message to standard
error and emits no report at all; per-entry read failures during
traversal (which `main.rs`'s collector absorbs entirely) never cause a
non-zero exit and never suppress the report. -/
theorem C7_exit_behavior :
    (∀ k, runMain (.dirErr k) = ⟨true, true, none⟩) ∧
    (∀ es, runMain (.dirOk es) =
      ⟨false, false, some (renderRows (collectMainList es))⟩) :=
  ⟨fun _ => rfl, fun _ => rfl⟩

/-- C9: Raising the min-size threshold never increases the reported entry
count (the filter is modelled from the spec, as no threshold handling
exists under `src/`). -/
theorem C9_min_size_monotone (es : List Entry) (t1 t2 : Nat) (h : t1 ≤ t2) :
    (minSizeFilter t2 es).length ≤ (minSizeFilter t1 es).length :=
  List.Sublist.length_le
    (List.monotone_filter_right es (fun e he => by
      have h2 : t2 ≤ e.size := by simpa [decide_eq_true_eq] using he
      simpa [decide_eq_true_eq] using Nat.le_trans h h2))

/-- Witness for C9 with thresholds 10 ≤ 20 over a single 15-byte entry:
the higher threshold keeps 0 entries, the lower keeps 1. -/
theorem C9_min_size_monotone_witness :
    (10 ≤ 20) ∧
    (minSizeFilter 20 [⟨"a.txt", false, 15⟩]).length ≤
      (minSizeFilter 10 [⟨"a.txt", false, 15⟩]).length ∧
    minSizeFilter 20 [(⟨"a.txt", false, 15⟩ : Entry)] = [] ∧
    minSizeFilter 10 [(⟨"a.txt", false, 15⟩ : Entry)] = [⟨"a.txt", false, 15⟩] :=
  ⟨by decide, C9_min_size_monotone [⟨"a.txt", false, 15⟩] 10 20 (by decide), rfl, rfl⟩


/-- C3 counterexample: in the `helpers.rs` revision, a permission-denied
error raised while listing a subdirectory escapes `calculate_total_size`
as an error instead of being converted to a contribution of 0, while the
`main.rs` revision absorbs the same failure. -/
theorem C3_counterexample :
    calcHelpers (.dirOk (.cons (.entry "locked" none
      (.dirErr .permissionDenied)) .nil)) = .error .permissionDenied ∧
    calcMain (.dirOk (.cons (.entry "locked" none
      (.dirErr .permissionDenied)) .nil)) = .ok 0 :=
  ⟨rfl, rfl⟩

/-- C3 as amended: in `main.rs`'s `calculate_total_size` every
permission-denied error (on listing, on an iterator yield, on a metadata
read) contributes 0 at the point of occurrence and never escapes as an
error, and every error of another kind aborts the accumulation and is
propagated past any successfully accumulated prefix; in the `helpers.rs`
revision the same holds for iterator-yield and metadata errors, but a
permission-denied listing failure is propagated as an error. -/
theorem C3_amended_error_policy :
    (∀ t, calcMain t ≠ .error .permissionDenied) ∧
    (calcMain (.dirErr .permissionDenied) = .ok 0) ∧
    (∀ rest, calcMainList (.cons (.iterErr .permissionDenied) rest) =
      calcMainList rest) ∧
    (∀ n t rest, calcMainList (.cons (.entry n (some .permissionDenied) t) rest) =
      calcMainList rest) ∧
    (∀ k, k ≠ ErrKind.permissionDenied →
      calcMain (.dirErr k) = .error k ∧
      (∀ rest, calcMainList (.cons (.iterErr k) rest) = .error k) ∧
      (∀ n t rest, calcMainList (.cons (.entry n (some k) t) rest) = .error k)) ∧
    (∀ xs n t k rest m, calcMainList xs = .ok m →
      calcMainEntry (.entry n none t) = .error k →
      calcMainList (xs.append (.cons (.entry n none t) rest)) = .error k) ∧
    (∀ k, calcHelpers (.dirErr k) = .error k) ∧
    (∀ rest, calcHelpersList (.cons (.iterErr .permissionDenied) rest) =
      calcHelpersList rest) ∧
    (∀ n t rest, calcHelpersList (.cons (.entry n (some .permissionDenied) t) rest) =
      calcHelpersList rest) := by
  refine ⟨calcMain_ne_pd, by simp [calcMain], calcMainList_skip_iterPD,
    calcMainList_skip_metaPD, ?_, ?_, fun k => rfl, ?_, ?_⟩
  · intro k hk
    refine ⟨by simp [calcMain, hk], ?_, ?_⟩
    · intro rest
      have he : calcMainEntry (.iterErr k) = .error k := by
        simp [calcMainEntry, hk]
      rw [calcMainList, he, bind_error_eq]
    · intro n t rest
      have he : calcMainEntry (.entry n (some k) t) = .error k := by
        simp [calcMainEntry, hk]
      rw [calcMainList, he, bind_error_eq]
  · intro xs n t k rest m hxs he
    rw [calcMainList_append, hxs, bind_ok_eq, calcMainList, he, bind_error_eq,
      bind_error_eq]
  · intro rest
    have h2 : ∀ zs, calcHelpersList (.cons (.iterErr ErrKind.permissionDenied) zs) =
        (calcHelpersEntry (.iterErr ErrKind.permissionDenied) >>= fun s =>
          calcHelpersList zs >>= fun r => pure (s + r)) := fun _ => by
      rw [calcHelpersList]
    have he : calcHelpersEntry (.iterErr ErrKind.permissionDenied) = .ok 0 := by
      simp [calcHelpersEntry]
    rw [h2, he, bind_ok_eq]
    cases hr : calcHelpersList rest with
    | ok r => rw [bind_ok_eq, pure_eq, Nat.zero_add]
    | error k => rw [bind_error_eq]
  · intro n t rest
    have h2 : calcHelpersList (.cons (.entry n (some ErrKind.permissionDenied) t) rest) =
        (calcHelpersEntry (.entry n (some ErrKind.permissionDenied) t) >>= fun s =>
          calcHelpersList rest >>= fun r => pure (s + r)) := by
      rw [calcHelpersList]
    have he : calcHelpersEntry (.entry n (some ErrKind.permissionDenied) t) = .ok 0 := by
      simp [calcHelpersEntry]
    rw [h2, he, bind_ok_eq]
    cases hr : calcHelpersList rest with
    | ok r => rw [bind_ok_eq, pure_eq, Nat.zero_add]
    | error k => rw [bind_error_eq]

/-- Witness for C3 as amended: a 5-byte file's directory never yields a
permission-denied error; a not-found listing failure is propagated; a
failing sibling after a successfully accumulated 5-byte prefix aborts the
whole accumulation with its own error kind. -/
theorem C3_amended_error_policy_witness :
    calcMain (.dirOk (.cons (.entry "x.txt" none (.file 5)) .nil)) ≠
      .error .permissionDenied ∧
    calcMain (.dirErr .notFound) = .error .notFound ∧
    calcMainList (EntryList.append (.cons (.entry "x.txt" none (.file 5)) .nil)
      (.cons (.entry "bad" none (.dirErr .otherErr)) .nil)) = .error .otherErr := by
  refine ⟨C3_amended_error_policy.1 _, ?_, ?_⟩
  · exact (C3_amended_error_policy.2.2.2.2.1 .notFound (by decide)).1
  · exact C3_amended_error_policy.2.2.2.2.2.1
      (.cons (.entry "x.txt" none (.file 5)) .nil) "bad" (.dirErr .otherErr)
      .otherErr .nil 5 rfl rfl


/-- C4 counterexample: when the accumulation of the direct child `bad`
fails with a non-permission error, `helpers.rs`'s collector fails the
whole scan with that error instead of omitting the child, even though the
sibling `a.txt` is readable; `main.rs`'s collector omits the child and
returns the sibling. -/
theorem C4_counterexample :
    collectHelpers (.dirOk (.cons (.entry "bad" none (.dirErr .otherErr))
      (.cons (.entry "a.txt" none (.file 5)) .nil))) = .error .otherErr ∧
    collectMain (.dirOk (.cons (.entry "bad" none (.dirErr .otherErr))
      (.cons (.entry "a.txt" none (.file 5)) .nil))) =
      .ok [⟨"a.txt", false, 5⟩] :=
  ⟨rfl, rfl⟩

/-- C4 as amended: when the size accumulation of one direct child
directory fails for any reason, `main.rs`'s collector omits that single
child and still returns successfully with the remaining children's
entries; `helpers.rs`'s collector instead aborts the whole scan with the
child's error once the preceding children have been collected. -/
theorem C4_amended_child_failure (n : String) (t : FsTree)
    (xs rest : EntryList) (k : ErrKind) (hd : isDirNode t = true) :
    (calcMain t = .error k →
      collectMain (.dirOk (xs.append (.cons (.entry n none t) rest))) =
        .ok (collectMainList xs ++ collectMainList rest)) ∧
    (∀ l, collectHelpersList xs = .ok l → calcHelpers t = .error k →
      collectHelpers (.dirOk (xs.append (.cons (.entry n none t) rest))) =
        .error k) := by
  constructor
  · intro hk
    have h1 : collectMain (.dirOk (xs.append (.cons (.entry n none t) rest))) =
        .ok (collectMainList (xs.append (.cons (.entry n none t) rest))) := rfl
    rw [h1, collectMainList_append, collectMainList_cons_dir n t rest hd, hk]
  · intro l hok hk
    have h1 : collectHelpers (.dirOk (xs.append (.cons (.entry n none t) rest))) =
        collectHelpersList (xs.append (.cons (.entry n none t) rest)) := rfl
    rw [h1]
    exact collectHelpersList_abort xs l hok n t k rest hd hk

/-- Witness for C4 as amended: with readable siblings `a.txt` (5 bytes,
before) and `c.txt` (7 bytes, after) around the failing child `bad`,
`main.rs`'s collector returns both siblings while `helpers.rs`'s
collector returns the error. -/
theorem C4_amended_child_failure_witness :
    isDirNode (.dirErr .otherErr) = true ∧
    collectMain (.dirOk (EntryList.append
      (.cons (.entry "a.txt" none (.file 5)) .nil)
      (.cons (.entry "bad" none (.dirErr .otherErr))
        (.cons (.entry "c.txt" none (.file 7)) .nil)))) =
      .ok [⟨"a.txt", false, 5⟩, ⟨"c.txt", false, 7⟩] ∧
    collectHelpers (.dirOk (EntryList.append
      (.cons (.entry "a.txt" none (.file 5)) .nil)
      (.cons (.entry "bad" none (.dirErr .otherErr))
        (.cons (.entry "c.txt" none (.file 7)) .nil)))) = .error .otherErr := by
  refine ⟨rfl, ?_, ?_⟩
  · have h := (C4_amended_child_failure "bad" (.dirErr .otherErr)
      (.cons (.entry "a.txt" none (.file 5)) .nil)
      (.cons (.entry "c.txt" none (.file 7)) .nil) .otherErr rfl).1 rfl
    rw [h]
    rfl
  · exact (C4_amended_child_failure "bad" (.dirErr .otherErr)
      (.cons (.entry "a.txt" none (.file 5)) .nil)
      (.cons (.entry "c.txt" none (.file 7)) .nil) .otherErr rfl).2
      [⟨"a.txt", false, 5⟩] rfl rfl

/-- C5 counterexample: a not-found metadata error on the entry `ghost`
aborts the accumulation in both revisions (the readable 7-byte sibling is
lost), whereas the same shape with a permission-denied error is skipped
and the traversal continues — so not-found is not handled like
permission-denied. -/
theorem C5_counterexample :
    calcMain (.dirOk (.cons (.entry "ghost" (some .notFound) (.file 5))
      (.cons (.entry "y.txt" none (.file 7)) .nil))) = .error .notFound ∧
    calcHelpers (.dirOk (.cons (.entry "ghost" (some .notFound) (.file 5))
      (.cons (.entry "y.txt" none (.file 7)) .nil))) = .error .notFound ∧
    calcMain (.dirOk (.cons (.entry "ghost" (some .permissionDenied) (.file 5))
      (.cons (.entry "y.txt" none (.file 7)) .nil))) = .ok 7 :=
  ⟨rfl, rfl, by
    have h2 : calcMainList (.cons (.entry "y.txt" none (.file 7)) .nil) =
        .ok 7 := rfl
    have he : calcMainEntry (.entry "ghost" (some .permissionDenied)
        (.file 5)) = .ok 0 := rfl
    show calcMainList _ = .ok 7
    rw [calcMainList, he, bind_ok_eq, h2, bind_ok_eq, pure_eq]⟩

/-- C5 as amended: a not-found error encountered mid-traversal is not
normalized to a permission-denied skip: whether it arises on an iterator
yield, on a metadata read, or (in `main.rs`) on recursing into a child
whose listing fails with not-found, it aborts the accumulation and
propagates, in both revisions; only permission-denied errors are skipped
with a contribution of 0. -/
theorem C5_amended_notfound_aborts :
    (∀ rest, calcMainList (.cons (.iterErr .notFound) rest) = .error .notFound) ∧
    (∀ n t rest, calcMainList (.cons (.entry n (some .notFound) t) rest) =
      .error .notFound) ∧
    (∀ n rest, calcMainList (.cons (.entry n none (.dirErr .notFound)) rest) =
      .error .notFound) ∧
    (∀ rest, calcHelpersList (.cons (.iterErr .notFound) rest) = .error .notFound) ∧
    (∀ n t rest, calcHelpersList (.cons (.entry n (some .notFound) t) rest) =
      .error .notFound) ∧
    (∀ n rest, calcHelpersList (.cons (.entry n none (.dirErr .notFound)) rest) =
      .error .notFound) ∧
    (∀ rest, calcMainList (.cons (.iterErr .permissionDenied) rest) =
      calcMainList rest) ∧
    (∀ n t rest, calcMainList (.cons (.entry n (some .permissionDenied) t) rest) =
      calcMainList rest) := by
  exact ⟨fun rest => rfl, fun n t rest => rfl, fun n rest => rfl,
    fun rest => rfl, fun n t rest => rfl, fun n rest => rfl,
    calcMainList_skip_iterPD, calcMainList_skip_metaPD⟩


/-- C6 counterexample: with one directory of size 1 and one file of
size 2 the rendered order is the directory row first, so the report as a
whole is not ordered by size descending. -/
theorem C6_counterexample :
    renderRows [⟨"d", true, 1⟩, ⟨"f", false, 2⟩] =
      [⟨"d", true, 1⟩, ⟨"f", false, 2⟩] ∧
    ¬ List.Sorted (fun a b : Entry => b.size ≤ a.size)
        (renderRows [⟨"d", true, 1⟩, ⟨"f", false, 2⟩]) := by
  constructor
  · rfl
  · intro hs
    have h1 : renderRows [⟨"d", true, 1⟩, ⟨"f", false, 2⟩] =
        [⟨"d", true, 1⟩, ⟨"f", false, 2⟩] := rfl
    rw [h1] at hs
    have h2 := List.rel_of_sorted_cons hs ⟨"f", false, 2⟩ (by simp)
    exact absurd h2 (by decide)

/-- C6 as amended: when sorting by size, each of the two groups of the
report (directory rows, then file rows) is ordered by size descending and
the sort is stable within each group — every exact-size class appears in
its pre-sort order; the full table is not globally size-ordered because
all directory rows precede all file rows. -/
theorem C6_amended_groupwise_sort (es : List Entry) (s : Nat) :
    renderRows es =
      sortBySizeDesc (es.filter fun e => e.isDir) ++
        sortBySizeDesc (es.filter fun e => !e.isDir) ∧
    List.Sorted (fun a b => b.size ≤ a.size)
      (sortBySizeDesc (es.filter fun e => e.isDir)) ∧
    List.Sorted (fun a b => b.size ≤ a.size)
      (sortBySizeDesc (es.filter fun e => !e.isDir)) ∧
    (sortBySizeDesc (es.filter fun e => e.isDir)).filter (fun e => e.size == s) =
      (es.filter fun e => e.isDir).filter (fun e => e.size == s) ∧
    (sortBySizeDesc (es.filter fun e => !e.isDir)).filter (fun e => e.size == s) =
      (es.filter fun e => !e.isDir).filter (fun e => e.size == s) :=
  ⟨rfl, sortBySizeDesc_sorted _, sortBySizeDesc_sorted _,
    filter_size_sortBySizeDesc s _, filter_size_sortBySizeDesc s _⟩

/-- C8 counterexample: a direct child named `.git` is not excluded — the
collector reports it even though `.git` is in the spec's fixed
smart-ignore name set. -/
theorem C8_counterexample :
    collectMain (.dirOk (.cons (.entry ".git" none (.dirOk .nil)) .nil)) =
      .ok [⟨".git", true, 0⟩] ∧
    (⟨".git", true, 0⟩ : Entry) ∈
      collectMainList (.cons (.entry ".git" none (.dirOk .nil)) .nil) ∧
    ".git" ∈ smartIgnoreNames := by
  refine ⟨rfl, ?_, ?_⟩
  · rw [show collectMainList (.cons (.entry ".git" none (.dirOk .nil)) .nil) =
      [⟨".git", true, 0⟩] from rfl]
    exact List.mem_singleton_self _
  · simp [smartIgnoreNames]

/-- C8 as amended: the code applies no name-based exclusion at all —
every readable direct child is reported whatever its name, including
names in the spec's fixed smart-ignore set. -/
theorem C8_amended_no_ignore (es : EntryList) (h : permOnlyList es = true) :
    (collectMainList es).map Entry.name = readableChildNames es ∧
    (∀ n, n ∈ readableChildNames es → n ∈ smartIgnoreNames →
      n ∈ (collectMainList es).map Entry.name) := by
  have hn := collectMainList_names es h
  exact ⟨hn, fun n hn1 _ => hn ▸ hn1⟩

/-- Witness for C8 as amended: children named `.git`, `node_modules` and
`src` are all reported. -/
theorem C8_amended_no_ignore_witness :
    permOnlyList (.cons (.entry ".git" none (.dirOk .nil))
      (.cons (.entry "node_modules" none (.dirOk .nil))
      (.cons (.entry "src" none (.dirOk .nil)) .nil))) = true ∧
    (collectMainList (.cons (.entry ".git" none (.dirOk .nil))
      (.cons (.entry "node_modules" none (.dirOk .nil))
      (.cons (.entry "src" none (.dirOk .nil)) .nil)))).map Entry.name =
      [".git", "node_modules", "src"] := by
  refine ⟨rfl, ?_⟩
  have h := (C8_amended_no_ignore (.cons (.entry ".git" none (.dirOk .nil))
      (.cons (.entry "node_modules" none (.dirOk .nil))
      (.cons (.entry "src" none (.dirOk .nil)) .nil))) rfl).1
  rw [h]
  rfl

/-- C10: the rendered table is the partition of the collected entries
into the directory group followed by the file group, each group being a
size-descending sort (hence a permutation) of the corresponding filtered
entries; in particular no directory row ever appears after a file row. -/
theorem C10_directories_before_files (es : List Entry) :
    renderRows es =
      sortBySizeDesc (es.filter fun e => e.isDir) ++
        sortBySizeDesc (es.filter fun e => !e.isDir) ∧
    (∀ e ∈ sortBySizeDesc (es.filter fun e => e.isDir), e.isDir = true) ∧
    (∀ e ∈ sortBySizeDesc (es.filter fun e => !e.isDir), e.isDir = false) ∧
    List.Perm (sortBySizeDesc (es.filter fun e => e.isDir))
      (es.filter fun e => e.isDir) ∧
    List.Perm (sortBySizeDesc (es.filter fun e => !e.isDir))
      (es.filter fun e => !e.isDir) ∧
    List.Sorted (fun a b => b.size ≤ a.size)
      (sortBySizeDesc (es.filter fun e => e.isDir)) ∧
    List.Sorted (fun a b => b.size ≤ a.size)
      (sortBySizeDesc (es.filter fun e => !e.isDir)) ∧
    List.Pairwise (fun a b => b.isDir = true → a.isDir = true) (renderRows es) := by
  have hdir : ∀ e ∈ sortBySizeDesc (es.filter fun e => e.isDir), e.isDir = true := by
    intro e he
    have h := (List.mem_filter.mp (mem_sortBySizeDesc.mp he)).2
    simpa using h
  have hfile : ∀ e ∈ sortBySizeDesc (es.filter fun e => !e.isDir),
      e.isDir = false := by
    intro e he
    have h := (List.mem_filter.mp (mem_sortBySizeDesc.mp he)).2
    simpa using h
  refine ⟨rfl, hdir, hfile, sortBySizeDesc_perm _, sortBySizeDesc_perm _,
    sortBySizeDesc_sorted _, sortBySizeDesc_sorted _, ?_⟩
  rw [renderRows]
  refine List.pairwise_append.mpr ⟨?_, ?_, ?_⟩
  · exact List.pairwise_of_forall_mem_list fun a ha b hb _ => hdir a ha
  · refine List.pairwise_of_forall_mem_list fun a ha b hb hbd => ?_
    rw [hfile b hb] at hbd
    exact absurd hbd Bool.false_ne_true
  · exact fun a ha b hb _ => hdir a ha

end Explain
